import Mathlib

/-!
Shallow embedding of `build_skia_bundle.py` (ShaftUI/skia-bundle).

The script downloads per-platform Skia archives, extracts a selected
subdirectory, copies and renames library files, synthesizes an umbrella
header and a module map, and emits an `info.json` manifest.  The pure
logic of each step is embedded below as executable Lean definitions:

* strings are modelled by `String`, with all operations implemented
  structurally over `String.data` (`List Char`) so that they compute
  by kernel reduction; Python string slicing and `len` act on
  characters, as do the Lean counterparts here;
* the nested Python dicts keyed by platform name become ordered
  association lists (`List (String × _)`), which preserves the
  insertion order that Python dicts guarantee;
* the filesystem side effects (downloading, copying) are dropped; what
  is kept is exactly the data each step computes: which entries are
  extracted, which target names files are copied under, which library
  entries are recorded, and the manifest structure.
-/

namespace SkiaBundle

/-- Character-list test that `p` is a prefix of `s` (used for Python
`str.startswith` on ASCII data). -/
def listStarts : List Char → List Char → Bool
  | [], _ => true
  | _ :: _, [] => false
  | a :: as, b :: bs => a == b && listStarts as bs

/-- Python `s.startswith(p)`. -/
def strStarts (s p : String) : Bool := listStarts p.data s.data

/-- Python `s.endswith(p)`, used for the `rglob("*.lib")` / `rglob("*.a")`
file-name patterns. -/
def strEnds (s p : String) : Bool := listStarts p.data.reverse s.data.reverse

/-- Python `s.lower()` (ASCII case folding, which is all the script's
library names use). -/
def lowerStr (s : String) : String := String.mk (s.data.map Char.toLower)

/-- Python `s[n:]` (slicing counts characters, as does this). -/
def strDropN (s : String) (n : Nat) : String := String.mk (s.data.drop n)

/-- Python `len(s)` in characters. -/
def strLen (s : String) : Nat := s.data.length

/-- Python `s.lstrip("/")`. -/
def lstripSlash (s : String) : String := String.mk (s.data.dropWhile (fun c => c = '/'))

/-- Lexicographic comparison of character lists by code point; this is
the order Python `sorted` uses on strings. -/
def strLeAux : List Char → List Char → Bool
  | [], _ => true
  | _ :: _, [] => false
  | a :: as, b :: bs => if a < b then true else if b < a then false else strLeAux as bs

/-- Lexicographic `≤` on strings as a Bool, matching Python string order. -/
def strLe (a b : String) : Bool := strLeAux a.data b.data

/-- `strLe` as a relation, for `List.insertionSort`. -/
def strLeRel (a b : String) : Prop := strLe a b = true

instance strLeRelDec : DecidableRel strLeRel :=
  fun a b => inferInstanceAs (Decidable (strLe a b = true))

/-- Index of the last `'.'` in a character list, if any: Python
`name.rfind(".")` restricted to a found result. -/
def rfindDotIdx : List Char → Option Nat
  | [] => none
  | c :: rest =>
    match rfindDotIdx rest with
    | some i => some (i + 1)
    | none => if c = '.' then some 0 else none

/-- `pathlib.PurePath.stem` and `.suffix` of a file name: the name is
split at the last dot when that dot is neither the first nor the last
character; otherwise the suffix is empty. -/
def stemAndSuffix (name : String) : String × String :=
  match rfindDotIdx name.data with
  | some i =>
    if 0 < i ∧ i + 1 < name.data.length then
      (String.mk (name.data.take i), String.mk (name.data.drop i))
    else (name, "")
  | none => (name, "")

/-- One row of the `platforms` dict in `get_download_info`. -/
structure PlatformInfo where
  repo : String
  arch : String
  os : String
  lib_name : String
  triple : List String
deriving DecidableEq, Repr

/-- The `platforms` dict of `get_download_info`, in source order. -/
def platformCatalog : List (String × PlatformInfo) :=
  [("macos-universal",
    { repo := "https://github.com/JetBrains/skia-pack", arch := "arm64", os := "macos",
      lib_name := "libskia.a",
      triple := ["x86_64-apple-macosx", "arm64-apple-macosx"] }),
   ("linux-x64",
    { repo := "https://github.com/ShaftUI/skia-pack", arch := "x64", os := "linux",
      lib_name := "libskia.a",
      triple := ["x86_64-unknown-linux-gnu"] }),
   ("linux-aarch64",
    { repo := "https://github.com/ShaftUI/skia-pack", arch := "arm64", os := "linux",
      lib_name := "libskia.a",
      triple := ["aarch64-unknown-linux-gnu"] }),
   ("windows-x64",
    { repo := "https://github.com/ShaftUI/skia-pack", arch := "x64", os := "windows",
      lib_name := "skia.lib",
      triple := ["x86_64-unknown-windows-msvc"] })]

/-- The names of the supported platforms, in catalog order. -/
def platformNames : List String := platformCatalog.map (fun pi => pi.1)

/-- One value of the dict returned by `get_download_info`. -/
structure DownloadInfo where
  url : String
  lib_name : String
  triple : List String
  extract_path : String
deriving DecidableEq, Repr

/-- `get_download_info(version)`: pure string interpolation over the
platform catalog; one entry per supported platform, in catalog order. -/
def get_download_info (version : String) : List (String × DownloadInfo) :=
  platformCatalog.map (fun pi =>
    (pi.1,
     { url := pi.2.repo ++ "/releases/download/" ++ version ++ "/Skia-" ++ version ++ "-" ++
         pi.2.os ++ "-Release-" ++ pi.2.arch ++ ".zip",
       lib_name := pi.2.lib_name,
       triple := pi.2.triple,
       extract_path := "out/Release-" ++ pi.2.os ++ "-" ++ pi.2.arch }))

/-- The extraction filter of `download_and_extract`: for each archive
member name, if it starts with `extract_path` the member is written to
the staging area under the remainder of its name with leading slashes
stripped, unless that remainder is empty (in which case it is
skipped).  The result is the list of relative paths written, in
archive order. -/
def extractRelPaths (extract_path : String) (names : List String) : List String :=
  names.filterMap (fun m =>
    if strStarts m extract_path then
      let rel := lstripSlash (strDropN m (strLen extract_path))
      if rel = "" then none else some rel
    else none)

/-- A Library Entry: the dict appended to `platform_libraries` in
`copy_libraries`. -/
structure LibEntry where
  file_name : String
  lib_name : String
  is_main : Bool
deriving DecidableEq, Repr

/-- Whether a platform uses the Windows naming branch:
`platform.startswith("windows")`. -/
def isWindows (platform : String) : Bool := strStarts platform "windows"

/-- The normalized target stem of `copy_libraries`: on Windows
platforms a case-insensitive `"lib"` stem head is removed
(`original_stem[3:]`); elsewhere the stem is kept verbatim. -/
def targetStemOf (windows : Bool) (stem : String) : String :=
  if windows then
    if strStarts (lowerStr stem) "lib" then strDropN stem 3 else stem
  else stem

/-- The display-name rule of `copy_libraries`: strip a literal `"lib"`
head of the target stem if present; this rule does not depend on the
platform. -/
def displayNameOf (target_stem : String) : String :=
  if strStarts target_stem "lib" then strDropN target_stem 3 else target_stem

/-- The per-file body of the `copy_libraries` loop: skip `icudtl.dat`;
otherwise compute the copied file name (`target_name`) and the Library
Entry recorded for the file.  Returns `none` when the file is skipped. -/
def processFile (windows : Bool) (name : String) : Option (String × LibEntry) :=
  if name = "icudtl.dat" then none
  else
    let ss := stemAndSuffix name
    let target_stem := targetStemOf windows ss.1
    let target_name := if windows then target_stem ++ ss.2 else name
    let display := displayNameOf target_stem
    some (target_name,
      { file_name := target_name, lib_name := display,
        is_main := lowerStr display == "skia" })

/-- The `rglob` pattern filter of `copy_libraries`: `*.lib` on Windows
platforms, `*.a` elsewhere, applied to the base names of the files in
the staging area. -/
def scanFiles (windows : Bool) (files : List String) : List String :=
  files.filter (fun n => if windows then strEnds n ".lib" else strEnds n ".a")

/-- `copy_libraries` restricted to one platform: the Library Entries
recorded for the platform, in scan order. -/
def copyPlatformLibraries (platform : String) (files : List String) : List LibEntry :=
  (scanFiles (isWindows platform) files).filterMap
    (fun n => (processFile (isWindows platform) n).map (fun r => r.2))

/-- The names files are copied under for one platform, in scan order. -/
def copiedNames (platform : String) (files : List String) : List String :=
  (scanFiles (isWindows platform) files).filterMap
    (fun n => (processFile (isWindows platform) n).map (fun r => r.1))

/-- `copy_libraries`: iterate the platforms passed in (the successfully
staged ones), skipping a platform whose staging directory is missing
(`none`); each remaining platform contributes its Library Entry list,
keyed by platform name in iteration order. -/
def copy_libraries (staged : List (String × Option (List String))) :
    List (String × List LibEntry) :=
  staged.filterMap (fun ps => ps.2.map (fun files => (ps.1, copyPlatformLibraries ps.1 files)))

/-- The `staticLibraryMetadata` value attached to main-library variants. -/
structure SLMeta where
  headerPaths : List String
  moduleMapPath : String
deriving DecidableEq, Repr

/-- A manifest variant, as built in `create_info_json`. -/
structure Variant where
  path : String
  supportedTriples : List String
  staticLibraryMetadata : Option SLMeta
deriving DecidableEq, Repr, Inhabited

/-- A manifest artifact, as built in `create_info_json`. -/
structure Artifact where
  version : String
  type : String
  variants : List Variant
deriving DecidableEq, Repr

/-- The inner search of `create_info_json`: the first Library Entry of
a platform whose `lib_name` matches. -/
def findLib (name : String) (libs : List LibEntry) : Option LibEntry :=
  libs.find? (fun l => l.lib_name == name)

/-- The variant built in `create_info_json` for a matching entry:
path `platform/file_name`, the platform's triples, and
`staticLibraryMetadata` exactly when the entry is flagged main. -/
def mkVariant (dl : String → List String) (platform : String) (li : LibEntry) : Variant :=
  { path := platform ++ "/" ++ li.file_name,
    supportedTriples := dl platform,
    staticLibraryMetadata :=
      if li.is_main then
        some { headerPaths := ["include"], moduleMapPath := "module.modulemap" }
      else none }

/-- The variants collected for one library name: platforms in
iteration order, each contributing the variant of its first matching
entry, if any. -/
def variantsFor (dl : String → List String) (name : String)
    (libs : List (String × List LibEntry)) : List Variant :=
  libs.filterMap (fun pe => (findLib name pe.2).map (fun li => mkVariant dl pe.1 li))

/-- The union of display names over all platforms (`all_lib_names` in
`create_info_json`), as a duplicate-free list. -/
def allLibNames (libs : List (String × List LibEntry)) : List String :=
  (libs.flatMap (fun pe => pe.2.map (fun e => e.lib_name))).dedup

/-- `create_info_json`: for each distinct display name in sorted order,
collect the variants across platforms and emit an artifact unless the
variant list is empty.  `dl` is the `download_info[platform]["triple"]`
lookup.  The result models the ordered `artifacts` dict of the emitted
JSON document. -/
def create_info_json (dl : String → List String) (version : String)
    (libs : List (String × List LibEntry)) : List (String × Artifact) :=
  (List.insertionSort strLeRel (allLibNames libs)).filterMap
    (fun name =>
      let variants := variantsFor dl name libs
      if variants.isEmpty then none
      else some (name, { version := version, type := "staticLibrary", variants := variants }))

/-- The fixed `module.modulemap` content written by `create_module_map`. -/
def moduleMapContent : String :=
  "module skia \x7b\n    header \"include/skia.h\"\n    link \"skia\"\n    export *\n\x7d"

/-- The header path hard-coded both in the module map and as the
umbrella-header location inside the bundle. -/
def moduleHeaderPath : String := "include/skia.h"

/-- The umbrella header content written when headers were copied. -/
def umbrellaFullContent : String :=
  "// Skia umbrella header\n#pragma once\n\n// Core Skia headers\n#include \"core/SkTypes.h\"\n#include \"core/SkCanvas.h\"\n#include \"core/SkPaint.h\"\n#include \"core/SkPath.h\"\n#include \"core/SkSurface.h\"\n#include \"core/SkImage.h\"\n#include \"core/SkData.h\"\n#include \"core/SkString.h\"\n#include \"core/SkMatrix.h\"\n#include \"core/SkRect.h\"\n#include \"core/SkPoint.h\"\n#include \"core/SkSize.h\"\n#include \"core/SkColor.h\"\n#include \"core/SkColorSpace.h\"\n#include \"core/SkImageInfo.h\"\n#include \"core/SkPixmap.h\"\n#include \"core/SkRefCnt.h\"\n#include \"core/SkShader.h\"\n#include \"core/SkBlendMode.h\"\n#include \"core/SkColorType.h\"\n#include \"core/SkPicture.h\"\n\n// GPU headers (optional)\n#ifdef SK_GANESH\n#include \"gpu/GrDirectContext.h\"\n#endif\n\n// Effects and utilities\n#include \"effects/SkGradientShader.h\"\n\n// SVG support\n#ifdef SK_SVG\n#include \"svg/SkSVGCanvas.h\"\n#endif\n"

/-- The fallback header content written when no headers were found. -/
def minimalHeader (version : String) : String :=
  "// Skia minimal header - Version " ++ version ++
    "\n#pragma once\n\n// Include core Skia functionality\n// Note: Headers were not found in the downloaded packages\n// You may need to include specific Skia headers manually\n"

/-- One entry of the temp directory as `create_umbrella_header` sees it
through `temp_dir.iterdir()`: its name, whether it is a directory, and
whether it contains an `include` subdirectory.  The listing is whatever
is in the temp directory at that point, which includes directories of
platforms whose extraction failed partway and leftovers of earlier
runs, not only the successfully staged platforms. -/
structure TempEntry where
  name : String
  isDir : Bool
  hasInclude : Bool
deriving DecidableEq, Repr

/-- The header-source search of `create_umbrella_header`: the first
temp-directory entry that is a directory and has an `include`
subdirectory. -/
def chooseHeaderSource (entries : List TempEntry) : Option String :=
  (entries.find? (fun e => e.isDir && e.hasInclude)).map (fun e => e.name)

/-- The outcome of `create_umbrella_header`: where headers were copied
from (if anywhere), the path of the written umbrella header relative
to the bundle, and its content. -/
structure UmbrellaResult where
  source : Option String
  writtenPath : String
  content : String
deriving DecidableEq, Repr

/-- `create_umbrella_header`: copy headers from the first temp-dir
entry that has an `include` subdirectory; write the umbrella header at
`include/skia.h` in both branches, with the full include list if
headers were copied and the minimal fallback text otherwise. -/
def create_umbrella_header (entries : List TempEntry) (version : String) : UmbrellaResult :=
  match chooseHeaderSource entries with
  | some n => { source := some n, writtenPath := "include/skia.h", content := umbrellaFullContent }
  | none => { source := none, writtenPath := "include/skia.h", content := minimalHeader version }

/-- The triple lookup `download_info[platform]["triple"]` used by
`create_info_json`; inside `main` every platform passed downstream is
a key of the download-info dict, so the default is never consulted. -/
def tripleLookup (version : String) : String → List String :=
  fun p => (((get_download_info version).find? (fun q => q.1 == p)).map (fun q => q.2.triple)).getD []

/-- The files the bundle directory receives on a successful run: the
module map, the umbrella header, the copied libraries under their
per-platform subdirectories, and the manifest. -/
def bundleFilesOf (umb : UmbrellaResult) (libs : List (String × List LibEntry)) : List String :=
  ["module.modulemap", umb.writtenPath] ++
    libs.flatMap (fun pe => pe.2.map (fun e => pe.1 ++ "/" ++ e.file_name)) ++ ["info.json"]

/-- The data written into the bundle directory by a successful run. -/
structure Bundle where
  moduleMap : String
  umbrella : UmbrellaResult
  libraries : List (String × List LibEntry)
  artifacts : List (String × Artifact)
  files : List String
deriving DecidableEq, Repr

/-- `main` after argument parsing, with the effectful inputs made
explicit: `stageOk p` tells whether `download_and_extract` succeeded
for platform `p`; `tempEntries` is the temp-directory listing seen by
`create_umbrella_header`; `stagedFiles p` is the list of file base
names found under the staging area of platform `p` (`none` when the
directory does not exist).  When no platform staged successfully the
script calls `sys.exit(1)` before writing the module map, umbrella
header, libraries or manifest, modelled by `Except.error ()`;
otherwise the bundle is assembled from the staged subset. -/
def mainRun (version : String) (stageOk : String → Bool) (tempEntries : List TempEntry)
    (stagedFiles : String → Option (List String)) : Except Unit Bundle :=
  let extracted := (get_download_info version).filter (fun pi => stageOk pi.1)
  if extracted.isEmpty then Except.error ()
  else
    let umb := create_umbrella_header tempEntries version
    let libs := copy_libraries (extracted.map (fun pi => (pi.1, stagedFiles pi.1)))
    let arts := create_info_json (tripleLookup version) version libs
    Except.ok
      { moduleMap := moduleMapContent, umbrella := umb, libraries := libs,
        artifacts := arts, files := bundleFilesOf umb libs }

/-- The variant list of a manifest artifact as the specification
describes it: the platforms that produced an entry with the display
name, in iteration order, each mapped to the variant of its first
matching entry.  This is the spec-side counterpart of `variantsFor`
and is compared against it in the theorems. -/
def variantsOfClaim (dl : String → List String) (name : String)
    (libs : List (String × List LibEntry)) : List Variant :=
  (libs.filter (fun pe => (findLib name pe.2).isSome)).map
    (fun pe =>
      match findLib name pe.2 with
      | some li => mkVariant dl pe.1 li
      | none => default)

/-- A concrete triple lookup used to instantiate theorems below. -/
def dlW : String → List String :=
  fun p => if p = "windows-x64" then ["x86_64-unknown-windows-msvc"] else ["x86_64-unknown-linux-gnu"]

/-- The Library Entry `copy_libraries` records for `libskia.a` on a
non-Windows platform. -/
def skiaEntryNix : LibEntry := { file_name := "libskia.a", lib_name := "skia", is_main := true }

/-- The Library Entry `copy_libraries` records for `skia.lib` on Windows. -/
def skiaEntryWin : LibEntry := { file_name := "skia.lib", lib_name := "skia", is_main := true }

/-- The Library Entry `copy_libraries` records for `freetype.lib` on Windows. -/
def freetypeEntryWin : LibEntry :=
  { file_name := "freetype.lib", lib_name := "freetype", is_main := false }

/-- A concrete two-platform Library Entry map. -/
def libsW : List (String × List LibEntry) :=
  [("linux-x64", [skiaEntryNix]), ("windows-x64", [skiaEntryWin, freetypeEntryWin])]

/-- The artifact `create_info_json` emits for `"skia"` on `libsW`. -/
def artSkiaW : Artifact :=
  { version := "v", type := "staticLibrary",
    variants := [mkVariant dlW "linux-x64" skiaEntryNix, mkVariant dlW "windows-x64" skiaEntryWin] }

/-- A staging outcome where only `linux-x64` staged successfully. -/
def stageOkLinux : String → Bool := fun p => p == "linux-x64"

/-- A staging outcome where only `macos-universal` staged successfully. -/
def stageOkMac : String → Bool := fun p => p == "macos-universal"

/-- A temp-directory listing holding include-bearing directories for
`linux-x64` and `macos-universal`. -/
def tempListingW : List TempEntry :=
  [{ name := "linux-x64", isDir := true, hasInclude := true },
   { name := "macos-universal", isDir := true, hasInclude := true }]

/-- The bundle produced by a run where only `linux-x64` staged, the
temp listing is empty, and the staging area holds no files. -/
def bundleW : Bundle :=
  { moduleMap := moduleMapContent,
    umbrella := { source := none, writtenPath := "include/skia.h", content := minimalHeader "v" },
    libraries := [("linux-x64", [])],
    artifacts := [],
    files := ["module.modulemap", "include/skia.h", "info.json"] }

section Lemmas

lemma strLeAux_iff : ∀ as bs : List Char, strLeAux as bs = true ↔ ¬ List.Lex (· < ·) bs as
  | [], _ => iff_of_true rfl (List.Lex.not_nil_right _ _)
  | _ :: _, [] => iff_of_false (fun h => Bool.noConfusion h) (not_not_intro List.Lex.nil)
  | a :: as, b :: bs => by
    show (if a < b then true else if b < a then false else strLeAux as bs) = true ↔ _
    rcases lt_trichotomy a b with h | h | h
    · rw [if_pos h]
      refine iff_of_true rfl (fun hlex => ?_)
      cases hlex with
      | rel h1 => exact absurd h1 (lt_asymm h)
      | cons h1 => exact absurd h (lt_irrefl a)
    · subst h
      rw [if_neg (lt_irrefl a), if_neg (lt_irrefl a)]
      rw [strLeAux_iff as bs]
      exact not_congr List.Lex.cons_iff.symm
    · rw [if_neg (lt_asymm h), if_pos h]
      exact iff_of_false (fun hh => Bool.noConfusion hh) (not_not_intro (List.Lex.rel h))

lemma strLe_iff (a b : String) : strLe a b = true ↔ a ≤ b := by
  rw [String.le_iff_toList_le]
  rw [show (a.toList ≤ b.toList ↔ ¬ b.toList < a.toList) from not_lt.symm]
  exact strLeAux_iff a.data b.data

instance : IsTotal String strLeRel :=
  ⟨fun a b => by
    simp only [strLeRel, strLe_iff]
    exact le_total a b⟩

instance : IsTrans String strLeRel :=
  ⟨fun a b c hab hbc => by
    simp only [strLeRel, strLe_iff] at *
    exact le_trans hab hbc⟩

lemma filterMap_congr_map {α β : Type} (l : List α) (f : α → Option β) (g : α → β)
    (h : ∀ x ∈ l, f x = some (g x)) : l.filterMap f = l.map g := by
  induction l with
  | nil => rfl
  | cons a t ih =>
    simp only [List.filterMap_cons, List.map_cons, h a (List.mem_cons_self a t)]
    rw [ih fun x hx => h x (List.mem_cons_of_mem a hx)]

lemma variantsFor_eq_claim (dl : String → List String) (name : String)
    (libs : List (String × List LibEntry)) :
    variantsFor dl name libs = variantsOfClaim dl name libs := by
  induction libs with
  | nil => rfl
  | cons pe t ih =>
    cases h : findLib name pe.2 with
    | none =>
      simp only [variantsFor, List.filterMap_cons, h, Option.map_none']
      simp only [variantsOfClaim, List.filter_cons, h, Option.isSome_none,
        Bool.false_eq_true, if_false]
      exact ih
    | some li =>
      simp only [variantsFor, List.filterMap_cons, h, Option.map_some']
      simp only [variantsOfClaim, List.filter_cons, h, Option.isSome_some, if_true,
        List.map_cons]
      exact congrArg (mkVariant dl pe.1 li :: ·) ih

lemma mem_allLibNames {name : String} {libs : List (String × List LibEntry)} :
    name ∈ allLibNames libs ↔ ∃ pe ∈ libs, ∃ e ∈ pe.2, e.lib_name = name := by
  simp only [allLibNames, List.mem_dedup, List.mem_flatMap, List.mem_map]

lemma findLib_isSome_iff {name : String} {es : List LibEntry} :
    (findLib name es).isSome = true ↔ ∃ e ∈ es, e.lib_name = name := by
  simp only [findLib, List.find?_isSome, beq_iff_eq]

lemma variantsFor_ne_nil {dl : String → List String} {name : String}
    {libs : List (String × List LibEntry)} (h : name ∈ allLibNames libs) :
    variantsFor dl name libs ≠ [] := by
  rcases mem_allLibNames.mp h with ⟨pe, hpe, he⟩
  intro hnil
  have hs : (findLib name pe.2).isSome = true := findLib_isSome_iff.mpr he
  have := List.filterMap_eq_nil_iff.mp hnil pe hpe
  rcases Option.isSome_iff_exists.mp hs with ⟨li, hli⟩
  rw [hli] at this
  exact Option.noConfusion this

lemma create_info_json_keys (dl : String → List String) (version : String)
    (libs : List (String × List LibEntry)) :
    (create_info_json dl version libs).map Prod.fst =
      List.insertionSort strLeRel (allLibNames libs) := by
  unfold create_info_json
  rw [filterMap_congr_map _ _
    (fun name =>
      (name, { version := version, type := "staticLibrary",
               variants := variantsFor dl name libs }))]
  · rw [List.map_map]
    exact List.map_id _
  · intro x hx
    have hmem : x ∈ allLibNames libs := (List.mem_insertionSort strLeRel).mp hx
    have hne : variantsFor dl x libs ≠ [] := variantsFor_ne_nil hmem
    simp only [List.isEmpty_iff, hne, if_false]

lemma create_info_json_mem {dl : String → List String} {version name : String}
    {libs : List (String × List LibEntry)} {art : Artifact}
    (h : (name, art) ∈ create_info_json dl version libs) :
    art = { version := version, type := "staticLibrary",
            variants := variantsFor dl name libs } ∧
    variantsFor dl name libs ≠ [] ∧ name ∈ allLibNames libs := by
  unfold create_info_json at h
  rcases List.mem_filterMap.mp h with ⟨x, hx, hfx⟩
  by_cases hE : (variantsFor dl x libs).isEmpty
  · rw [if_pos hE] at hfx
    exact Option.noConfusion hfx
  · rw [if_neg hE] at hfx
    have hpair := Option.some.inj hfx
    rw [Prod.mk.injEq] at hpair
    obtain ⟨rfl, h2⟩ := hpair
    refine ⟨h2.symm, ?_, (List.mem_insertionSort strLeRel).mp hx⟩
    intro hnil
    exact hE (by simp [hnil])

lemma get_download_info_keys (version : String) :
    (get_download_info version).map Prod.fst = platformNames := by
  simp only [get_download_info, platformNames, List.map_map]
  rfl

lemma mainRun_error_iff (version : String) (stageOk : String → Bool)
    (temp : List TempEntry) (files : String → Option (List String)) :
    mainRun version stageOk temp files = Except.error () ↔
      ∀ p ∈ platformNames, stageOk p = false := by
  unfold mainRun
  by_cases hE : ((get_download_info version).filter (fun pi => stageOk pi.1)).isEmpty
  · rw [if_pos hE]
    refine iff_of_true rfl ?_
    intro p hp
    rw [← get_download_info_keys version] at hp
    rcases List.mem_map.mp hp with ⟨pi, hpi, rfl⟩
    have := List.filter_eq_nil_iff.mp (List.isEmpty_iff.mp hE) pi hpi
    simpa using this
  · rw [if_neg hE]
    refine iff_of_false (fun h => Except.noConfusion h) ?_
    intro hall
    apply hE
    rw [List.isEmpty_iff, List.filter_eq_nil_iff]
    intro pi hpi
    have : pi.1 ∈ platformNames := by
      rw [← get_download_info_keys version]
      exact List.mem_map.mpr ⟨pi, hpi, rfl⟩
    simp [hall pi.1 this]

lemma mainRun_ok_elim {version : String} {stageOk : String → Bool}
    {temp : List TempEntry} {files : String → Option (List String)} {b : Bundle}
    (h : mainRun version stageOk temp files = Except.ok b) :
    b.umbrella = create_umbrella_header temp version ∧
    b.moduleMap = moduleMapContent ∧
    b.libraries = copy_libraries (((get_download_info version).filter
      (fun pi => stageOk pi.1)).map (fun pi => (pi.1, files pi.1))) ∧
    b.files = bundleFilesOf b.umbrella b.libraries := by
  unfold mainRun at h
  by_cases hE : ((get_download_info version).filter (fun pi => stageOk pi.1)).isEmpty
  · rw [if_pos hE] at h
    exact Except.noConfusion h
  · rw [if_neg hE] at h
    have hb := (Except.ok.inj h).symm
    subst hb
    exact ⟨rfl, rfl, rfl, rfl⟩

lemma mainRun_ok_of_staged {version : String} {stageOk : String → Bool}
    (temp : List TempEntry) (files : String → Option (List String))
    (h : ∃ p ∈ platformNames, stageOk p = true) :
    ∃ b, mainRun version stageOk temp files = Except.ok b := by
  unfold mainRun
  have hne : ¬ ((get_download_info version).filter (fun pi => stageOk pi.1)).isEmpty := by
    rcases h with ⟨p, hp, hok⟩
    rw [← get_download_info_keys version] at hp
    rcases List.mem_map.mp hp with ⟨pi, hpi, rfl⟩
    intro hE
    have := List.filter_eq_nil_iff.mp (List.isEmpty_iff.mp hE) pi hpi
    simp [hok] at this
  rw [if_neg hne]
  exact ⟨_, rfl⟩

lemma processFile_some {w : Bool} {name tn : String} {e : LibEntry}
    (h : processFile w name = some (tn, e)) :
    name ≠ "icudtl.dat" ∧
    tn = (if w then targetStemOf w (stemAndSuffix name).1 ++ (stemAndSuffix name).2 else name) ∧
    e.file_name = tn ∧
    e.lib_name = displayNameOf (targetStemOf w (stemAndSuffix name).1) ∧
    e.is_main = (lowerStr e.lib_name == "skia") := by
  by_cases hn : name = "icudtl.dat"
  · rw [processFile, if_pos hn] at h
    exact Option.noConfusion h
  · rw [processFile, if_neg hn] at h
    have hpair := Option.some.inj h
    rw [Prod.mk.injEq] at hpair
    obtain ⟨h1, h2⟩ := hpair
    subst h2
    exact ⟨hn, h1.symm, h1, rfl, rfl⟩

lemma processFile_of_ne {w : Bool} {name : String} (hn : name ≠ "icudtl.dat") :
    processFile w name =
      some (if w then targetStemOf w (stemAndSuffix name).1 ++ (stemAndSuffix name).2 else name,
        { file_name :=
            if w then targetStemOf w (stemAndSuffix name).1 ++ (stemAndSuffix name).2 else name,
          lib_name := displayNameOf (targetStemOf w (stemAndSuffix name).1),
          is_main := lowerStr (displayNameOf (targetStemOf w (stemAndSuffix name).1)) == "skia" }) := by
  rw [processFile, if_neg hn]

lemma mem_copyPlatformLibraries {platform : String} {files : List String} {e : LibEntry}
    (h : e ∈ copyPlatformLibraries platform files) :
    ∃ n tn, n ∈ scanFiles (isWindows platform) files ∧
      processFile (isWindows platform) n = some (tn, e) := by
  rcases List.mem_filterMap.mp h with ⟨n, hn, hfn⟩
  rcases Option.map_eq_some'.mp hfn with ⟨pr, hpr, hval⟩
  refine ⟨n, pr.1, hn, ?_⟩
  rw [← hval]
  exact hpr

lemma create_umbrella_header_source (entries : List TempEntry) (version : String) :
    (create_umbrella_header entries version).source = chooseHeaderSource entries := by
  unfold create_umbrella_header
  cases chooseHeaderSource entries <;> rfl

lemma create_umbrella_header_path (entries : List TempEntry) (version : String) :
    (create_umbrella_header entries version).writtenPath = "include/skia.h" := by
  unfold create_umbrella_header
  cases chooseHeaderSource entries <;> rfl

end Lemmas

/-- C7: for every version string, `get_download_info` is total over the
supported platforms (its keys are exactly the catalog's platform names,
with no error case), and each platform's resolved URL is exactly
`repo + "/releases/download/" + version + "/Skia-" + version + "-" + os
+ "-Release-" + arch + ".zip"` built from that platform's catalog
entry, with the triples and extraction path likewise taken from the
catalog; the function is pure, so it performs no network or filesystem
access by construction. -/
theorem c7_download_url (version : String) :
    (get_download_info version).map Prod.fst = platformNames ∧
    ∀ p d, (p, d) ∈ get_download_info version →
      ∃ info, (p, info) ∈ platformCatalog ∧
        d.url = info.repo ++ "/releases/download/" ++ version ++ "/Skia-" ++ version ++ "-" ++
          info.os ++ "-Release-" ++ info.arch ++ ".zip" ∧
        d.lib_name = info.lib_name ∧
        d.triple = info.triple ∧
        d.extract_path = "out/Release-" ++ info.os ++ "-" ++ info.arch := by
  refine ⟨get_download_info_keys version, ?_⟩
  intro p d hpd
  rcases List.mem_map.mp hpd with ⟨pi, hpi, heq⟩
  have hpair := heq
  rw [Prod.mk.injEq] at hpair
  obtain ⟨rfl, rfl⟩ := hpair
  exact ⟨pi.2, hpi, rfl, rfl, rfl, rfl⟩

/-- C7 witness: the theorem applied to the windows-x64 row at a
concrete version. -/
theorem c7_download_url_witness :
    ∃ info, ("windows-x64", info) ∈ platformCatalog ∧
      ("https://github.com/ShaftUI/skia-pack/releases/download/v/Skia-v-windows-Release-x64.zip"
        : String) = info.repo ++ "/releases/download/" ++ "v" ++ "/Skia-" ++ "v" ++ "-" ++
          info.os ++ "-Release-" ++ info.arch ++ ".zip" ∧
      ("skia.lib" : String) = info.lib_name ∧
      (["x86_64-unknown-windows-msvc"] : List String) = info.triple ∧
      ("out/Release-windows-x64" : String) = "out/Release-" ++ info.os ++ "-" ++ info.arch :=
  (c7_download_url "v").2 "windows-x64"
    { url := "https://github.com/ShaftUI/skia-pack/releases/download/v/Skia-v-windows-Release-x64.zip",
      lib_name := "skia.lib",
      triple := ["x86_64-unknown-windows-msvc"],
      extract_path := "out/Release-windows-x64" }
    (by decide)

/-- C4 counterexample: the claim says entries that are pure directory
markers are skipped, but an archive entry `out/x/sub/` (a directory
marker strictly below the extraction root `out/x`) is not skipped: the
code strips the prefix to `sub/` and writes it as a file. -/
theorem c4_counterexample :
    strEnds "out/x/sub/" "/" = true ∧ extractRelPaths "out/x" ["out/x/sub/"] = ["sub/"] := by
  decide

/-- C4 (amended): extraction keeps exactly the entries whose name
starts with the extraction-path prefix and whose prefix-stripped,
slash-left-stripped remainder is nonempty — so the prefix itself and
its trailing-slash marker are skipped, but directory markers strictly
below the prefix are written as (empty) files; each kept entry is
written at that remainder, preserving directory structure. -/
theorem c4_extraction (p : String) (names : List String) (rel : String) :
    rel ∈ extractRelPaths p names ↔
      rel ≠ "" ∧ ∃ m ∈ names, strStarts m p = true ∧
        lstripSlash (strDropN m (strLen p)) = rel := by
  unfold extractRelPaths
  rw [List.mem_filterMap]
  constructor
  · rintro ⟨m, hm, hfm⟩
    by_cases hs : strStarts m p
    · rw [if_pos hs] at hfm
      by_cases he : lstripSlash (strDropN m (strLen p)) = ""
      · rw [if_pos he] at hfm
        exact Option.noConfusion hfm
      · rw [if_neg he] at hfm
        have := Option.some.inj hfm
        subst this
        exact ⟨he, m, hm, hs, rfl⟩
    · rw [if_neg hs] at hfm
      exact Option.noConfusion hfm
  · rintro ⟨hne, m, hm, hs, hrel⟩
    refine ⟨m, hm, ?_⟩
    rw [if_pos hs, hrel, if_neg hne]

/-- C4 witness: a regular file below the prefix is extracted at its
prefix-stripped relative path. -/
theorem c4_extraction_witness :
    "include/core/SkTypes.h" ∈
      extractRelPaths "out/Release-linux-x64"
        ["out/Release-linux-x64/include/core/SkTypes.h"] :=
  (c4_extraction "out/Release-linux-x64"
      ["out/Release-linux-x64/include/core/SkTypes.h"] "include/core/SkTypes.h").mpr
    ⟨by decide, "out/Release-linux-x64/include/core/SkTypes.h", by decide, by decide, by decide⟩

/-- C3: `icudtl.dat` is never copied on any platform; on a Windows
platform a scanned file whose stem has a case-insensitive `lib` head
is copied under the head-stripped name (stem minus three characters,
suffix kept); on a non-Windows platform every scanned file other than
`icudtl.dat` is copied verbatim under its own name; and the display
name recorded for any copied file is obtained by the uniform,
platform-independent rule `displayNameOf` (strip a literal `lib` head
of the normalized stem if present). -/
theorem c3_copy_naming :
    (∀ w : Bool, processFile w "icudtl.dat" = none) ∧
    (∀ name : String, name ≠ "icudtl.dat" →
      (strStarts (lowerStr (stemAndSuffix name).1) "lib" = true →
        (processFile true name).map (fun r => r.1) =
          some (strDropN (stemAndSuffix name).1 3 ++ (stemAndSuffix name).2)) ∧
      (processFile false name).map (fun r => r.1) = some name) ∧
    (∀ (w : Bool) (name tn : String) (e : LibEntry), processFile w name = some (tn, e) →
      e.lib_name = displayNameOf (targetStemOf w (stemAndSuffix name).1)) := by
  refine ⟨fun w => by rw [processFile, if_pos rfl], ?_, ?_⟩
  · intro name hn
    constructor
    · intro hlib
      rw [processFile_of_ne hn]
      simp only [Option.map_some', targetStemOf, hlib, eq_self_iff_true, if_true]
    · rw [processFile_of_ne hn]
      simp only [Option.map_some', Bool.false_eq_true, if_false]
  · intro w name tn e h
    exact (processFile_some h).2.2.2.1

/-- C3 witness: `libfoo.lib` is copied as `foo.lib` on Windows,
`libfoo.a` is copied verbatim on Linux, and the recorded display names
follow the uniform strip rule. -/
theorem c3_copy_naming_witness :
    (processFile true "libfoo.lib").map (fun r => r.1) =
      some (strDropN (stemAndSuffix "libfoo.lib").1 3 ++ (stemAndSuffix "libfoo.lib").2) ∧
    (processFile false "libfoo.a").map (fun r => r.1) = some "libfoo.a" :=
  ⟨(c3_copy_naming.2.1 "libfoo.lib" (by decide)).1 (by decide),
   (c3_copy_naming.2.1 "libfoo.a" (by decide)).2⟩

/-- C8 counterexample: on a Windows platform where both `skia.lib` and
`libskia.lib` are scanned, both normalize to the display name `skia`
and both entries are flagged main, so a platform can have two main
entries, contrary to the claim. -/
theorem c8_counterexample :
    ((copyPlatformLibraries "windows-x64" ["skia.lib", "libskia.lib"]).filter
      (fun e => e.is_main)).length = 2 := by
  decide

/-- C8 (amended): the collector flags an entry as main exactly when
its display name lower-cases to `skia`; consequently the main entries
of a platform are exactly its entries with that display name — one
main entry when exactly one scanned file normalizes to `skia`, but
several when several files do. -/
theorem c8_main_flag (platform : String) (files : List String) :
    ((copyPlatformLibraries platform files).filter (fun e => e.is_main)) =
      ((copyPlatformLibraries platform files).filter
        (fun e => lowerStr e.lib_name == "skia")) ∧
    ∀ e ∈ copyPlatformLibraries platform files,
      e.is_main = (lowerStr e.lib_name == "skia") := by
  have hpt : ∀ e ∈ copyPlatformLibraries platform files,
      e.is_main = (lowerStr e.lib_name == "skia") := by
    intro e he
    rcases mem_copyPlatformLibraries he with ⟨n, tn, hn, hp⟩
    exact (processFile_some hp).2.2.2.2
  exact ⟨List.filter_congr hpt, hpt⟩

/-- C8 witness: the entry recorded for `libskia.a` on Linux is flagged
main and its display name lower-cases to `skia`. -/
theorem c8_main_flag_witness :
    skiaEntryNix.is_main = (lowerStr skiaEntryNix.lib_name == "skia") :=
  (c8_main_flag "linux-x64" ["libskia.a"]).2 skiaEntryNix (by decide)

/-- C1: for every triple lookup, version and per-platform Library
Entry map, the manifest keys are exactly the display names observed
across the platforms, listed in sorted (lexicographic) order, and
every emitted artifact carries one variant per platform that produced
an entry with its display name, in platform-insertion order
(`variantsOfClaim`), with the empty variant list never emitted. -/
theorem c1_manifest_structure (dl : String → List String) (version : String)
    (libs : List (String × List LibEntry)) :
    (∀ name, name ∈ (create_info_json dl version libs).map Prod.fst ↔
      ∃ pe ∈ libs, ∃ e ∈ pe.2, e.lib_name = name) ∧
    List.Sorted (· ≤ ·) ((create_info_json dl version libs).map Prod.fst) ∧
    ∀ name art, (name, art) ∈ create_info_json dl version libs →
      art.variants = variantsOfClaim dl name libs ∧ art.variants ≠ [] := by
  refine ⟨?_, ?_, ?_⟩
  · intro name
    rw [create_info_json_keys, List.mem_insertionSort strLeRel]
    exact mem_allLibNames
  · rw [create_info_json_keys]
    exact List.Pairwise.imp (fun h => (strLe_iff _ _).mp h)
      (List.sorted_insertionSort strLeRel (allLibNames libs))
  · intro name art h
    obtain ⟨ha, hne, hmem⟩ := create_info_json_mem h
    subst ha
    exact ⟨variantsFor_eq_claim dl name libs, hne⟩

/-- C1 witness: in a concrete two-platform manifest, the `skia`
artifact holds one variant per platform in order and is nonempty. -/
theorem c1_manifest_structure_witness :
    artSkiaW.variants = variantsOfClaim dlW "skia" libsW ∧ artSkiaW.variants ≠ [] :=
  (c1_manifest_structure dlW "v" libsW).2.2 "skia" artSkiaW (by decide)

/-- C2: an entry is flagged main exactly when its display name
lower-cases to `skia`, and every variant of the emitted manifest
carries `staticLibraryMetadata` exactly when the entry it was built
from is flagged main. -/
theorem c2_main_metadata :
    (∀ (w : Bool) (name tn : String) (e : LibEntry),
      processFile w name = some (tn, e) →
      (e.is_main = true ↔ lowerStr e.lib_name = "skia")) ∧
    (∀ (dl : String → List String) (version : String)
      (libs : List (String × List LibEntry)) (name : String) (art : Artifact) (v : Variant),
      (name, art) ∈ create_info_json dl version libs → v ∈ art.variants →
      ∃ pe li, pe ∈ libs ∧ findLib name pe.2 = some li ∧
        v.staticLibraryMetadata.isSome = li.is_main) := by
  constructor
  · intro w name tn e h
    rw [(processFile_some h).2.2.2.2]
    exact beq_iff_eq
  · intro dl version libs name art v hart hv
    obtain ⟨ha, hne, hmem⟩ := create_info_json_mem hart
    subst ha
    rcases List.mem_filterMap.mp hv with ⟨pe, hpe, hfpe⟩
    rcases Option.map_eq_some'.mp hfpe with ⟨li, hli, hval⟩
    subst hval
    refine ⟨pe, li, hpe, hli, ?_⟩
    unfold mkVariant
    cases hm : li.is_main <;> simp [hm]

/-- C2 witness: both parts applied at the entry for `libskia.a` and
its variant in the concrete manifest. -/
theorem c2_main_metadata_witness :
    (skiaEntryNix.is_main = true ↔ lowerStr skiaEntryNix.lib_name = "skia") ∧
    ∃ pe li, pe ∈ libsW ∧ findLib "skia" pe.2 = some li ∧
      (mkVariant dlW "linux-x64" skiaEntryNix).staticLibraryMetadata.isSome = li.is_main :=
  ⟨c2_main_metadata.1 false "libskia.a" "libskia.a" skiaEntryNix (by decide),
   c2_main_metadata.2 dlW "v" libsW "skia" artSkiaW (mkVariant dlW "linux-x64" skiaEntryNix)
     (by decide) (by decide)⟩

/-- C5: when every platform fails to stage, `main` exits with a
non-zero status before writing anything — no bundle (hence neither
`info.json` nor `module.modulemap`) is produced; when at least one
platform stages, the run proceeds and assembles the bundle from
exactly the staged subset. -/
theorem c5_exit_behavior (version : String) (stageOk : String → Bool)
    (temp : List TempEntry) (files : String → Option (List String)) :
    ((∀ p ∈ platformNames, stageOk p = false) →
      mainRun version stageOk temp files = Except.error () ∧
      ∀ b : Bundle, mainRun version stageOk temp files ≠ Except.ok b) ∧
    ((∃ p ∈ platformNames, stageOk p = true) →
      ∃ b, mainRun version stageOk temp files = Except.ok b ∧
        b.libraries = copy_libraries (((get_download_info version).filter
          (fun pi => stageOk pi.1)).map (fun pi => (pi.1, files pi.1)))) := by
  constructor
  · intro hall
    have herr := (mainRun_error_iff version stageOk temp files).mpr hall
    exact ⟨herr, fun b hb => by rw [herr] at hb; exact Except.noConfusion hb⟩
  · intro hex
    obtain ⟨b, hb⟩ := mainRun_ok_of_staged temp files hex
    exact ⟨b, hb, (mainRun_ok_elim hb).2.2.1⟩

/-- C5 witness: both branches at concrete staging outcomes. -/
theorem c5_exit_behavior_witness :
    mainRun "v" (fun _ => false) [] (fun _ => none) = Except.error () ∧
    ∃ b, mainRun "v" stageOkLinux [] (fun _ => none) = Except.ok b ∧
      b.libraries = copy_libraries (((get_download_info "v").filter
        (fun pi => stageOkLinux pi.1)).map
          (fun pi => (pi.1, (fun _ => (none : Option (List String))) pi.1))) :=
  ⟨((c5_exit_behavior "v" (fun _ => false) [] (fun _ => none)).1 (fun p hp => rfl)).1,
   (c5_exit_behavior "v" stageOkLinux [] (fun _ => none)).2 ⟨"linux-x64", by decide, by decide⟩⟩

/-- C6: when no temp-directory entry is a directory with an `include`
subdirectory, the umbrella header is still created at `include/skia.h`
with exactly the fallback placeholder text, and a run with at least
one staged platform still succeeds with that content. -/
theorem c6_fallback_header (version : String) (entries : List TempEntry) :
    (∀ e ∈ entries, (e.isDir && e.hasInclude) = false) →
    create_umbrella_header entries version =
      { source := none, writtenPath := "include/skia.h", content := minimalHeader version } ∧
    ∀ (stageOk : String → Bool) (files : String → Option (List String)),
      (∃ p ∈ platformNames, stageOk p = true) →
      ∃ b, mainRun version stageOk entries files = Except.ok b ∧
        b.umbrella.content = minimalHeader version := by
  intro hnone
  have hcs : chooseHeaderSource entries = none := by
    unfold chooseHeaderSource
    rw [List.find?_eq_none.mpr]
    · rfl
    · intro x hx
      simp [hnone x hx]
  have hu : create_umbrella_header entries version =
      { source := none, writtenPath := "include/skia.h", content := minimalHeader version } := by
    unfold create_umbrella_header
    rw [hcs]
  refine ⟨hu, ?_⟩
  intro stageOk files hex
  obtain ⟨b, hb⟩ := mainRun_ok_of_staged entries files hex
  refine ⟨b, hb, ?_⟩
  rw [(mainRun_ok_elim hb).1, hu]

/-- C6 witness: the empty temp listing with only linux-x64 staged. -/
theorem c6_fallback_header_witness :
    create_umbrella_header [] "v" =
      { source := none, writtenPath := "include/skia.h", content := minimalHeader "v" } ∧
    ∃ b, mainRun "v" stageOkLinux [] (fun _ => some []) = Except.ok b ∧
      b.umbrella.content = minimalHeader "v" := by
  have h := c6_fallback_header "v" [] (fun e he => absurd he (List.not_mem_nil e))
  exact ⟨h.1, h.2 stageOkLinux (fun _ => some []) ⟨"linux-x64", by decide, by decide⟩⟩

/-- C9 counterexample: in a run where only `macos-universal` staged
but the temp directory still holds an include-bearing `linux-x64`
directory (left behind by the failed extraction), the headers are
copied from `linux-x64` — a platform that did not stage — contrary to
the claim that headers only come from a successfully staged
platform. -/
theorem c9_counterexample :
    stageOkMac "linux-x64" = false ∧
    (mainRun "v" stageOkMac tempListingW (fun _ => some [])).toOption.map
      (fun b => b.umbrella.source) = some (some "linux-x64") := by
  exact ⟨rfl, rfl⟩

/-- C9 (amended): the header source of a successful run is the first
temp-directory entry that is a directory with an `include`
subdirectory — regardless of whether that entry belongs to a platform
that staged successfully, to one whose staging failed partway, or to
leftover temp data; whenever a source is chosen it is such an entry of
the listing. -/
theorem c9_header_source (version : String) (stageOk : String → Bool)
    (entries : List TempEntry) (files : String → Option (List String)) (b : Bundle)
    (h : mainRun version stageOk entries files = Except.ok b) :
    b.umbrella.source =
      (entries.find? (fun e => e.isDir && e.hasInclude)).map (fun e => e.name) ∧
    ∀ n, b.umbrella.source = some n →
      ∃ e ∈ entries, e.name = n ∧ e.isDir = true ∧ e.hasInclude = true := by
  have hu := (mainRun_ok_elim h).1
  have hsrc : b.umbrella.source =
      (entries.find? (fun e => e.isDir && e.hasInclude)).map (fun e => e.name) := by
    rw [hu, create_umbrella_header_source]
    rfl
  refine ⟨hsrc, ?_⟩
  intro n hn
  rw [hsrc] at hn
  rcases Option.map_eq_some'.mp hn with ⟨e, hfe, hname⟩
  have hmem := List.mem_of_find?_eq_some hfe
  have hpred := List.find?_some hfe
  rw [Bool.and_eq_true] at hpred
  exact ⟨e, hmem, hname, hpred.1, hpred.2⟩

/-- C9 witness: the amended statement at a concrete successful run
with an empty temp listing. -/
theorem c9_header_source_witness :
    bundleW.umbrella.source =
      (([] : List TempEntry).find? (fun e => e.isDir && e.hasInclude)).map (fun e => e.name) :=
  (c9_header_source "v" stageOkLinux [] (fun _ => some []) bundleW (by rfl)).1

/-- C10: every successful run writes the umbrella header at
`include/skia.h` (both the headers-found and the placeholder branch),
that path is among the files of the produced bundle, and the module
map fixes exactly that path as its header — so the declared header
path always names a file of the package. -/
theorem c10_umbrella_in_bundle (version : String) (stageOk : String → Bool)
    (entries : List TempEntry) (files : String → Option (List String)) (b : Bundle)
    (h : mainRun version stageOk entries files = Except.ok b) :
    b.umbrella.writtenPath = moduleHeaderPath ∧
    moduleHeaderPath ∈ b.files ∧
    b.moduleMap = "module skia \x7b\n    header \"" ++ moduleHeaderPath ++
      "\"\n    link \"skia\"\n    export *\n\x7d" := by
  obtain ⟨hu, hm, hl, hf⟩ := mainRun_ok_elim h
  have hp : b.umbrella.writtenPath = moduleHeaderPath := by
    rw [hu, create_umbrella_header_path]
    rfl
  refine ⟨hp, ?_, ?_⟩
  · have hfiles : b.files = ["module.modulemap", moduleHeaderPath] ++
        b.libraries.flatMap (fun pe => pe.2.map (fun e => pe.1 ++ "/" ++ e.file_name)) ++
        ["info.json"] := by
      rw [hf]
      unfold bundleFilesOf
      rw [hp]
    rw [hfiles]
    simp
  · rw [hm]
    rfl

/-- C10 witness: the fixed header path is among the files of a
concrete successful run's bundle. -/
theorem c10_umbrella_in_bundle_witness : moduleHeaderPath ∈ bundleW.files :=
  (c10_umbrella_in_bundle "v" stageOkLinux [] (fun _ => some []) bundleW (by rfl)).2.1

end SkiaBundle
